import Mathlib

/-!
# Verification of `screen_on_time.py` against its design specification

Shallow embedding of the single-file log analyzer (`src/screen_on_time.py`).

Modelling conventions:
* Timestamps are `Int` (seconds on the naive local timeline produced by
  `convert_timestamp`); `datetime` subtraction / `total_seconds()` becomes
  `Int` subtraction.  All quantities the script derives from timestamps and
  battery percentages are integral, so `Int` is exact.
* A raw log line is modelled by the outcome of the two regex matches the
  script ever performs on it: `LogLine.chargeMatch` is the result of
  `charge_regex.match` (timestamp, `Using (AC|Batt|BATT)`, charge percent) and
  `LogLine.displayMatch` the result of `display_regex.match`
  (timestamp, display state word).  A line may match both patterns, one, or
  neither, exactly as in the source.
* Every `print(...)` in `process_lines` / `get_closest_event` /
  `get_current_charge` is recorded as a `Msg` tagged with the stream the
  Python `print` writes to (`OutStream.out` for plain `print`); the data
  carried by each constructor is the data interpolated into the format
  string.  Rates are modelled in `ℚ`.
* Fallible operations (Python `IndexError` from `events[0]` / `events[-1]`,
  and `sys.exit(1)` style aborts) are made explicit: partial indexing becomes
  `Option`, and `process_lines` returns an explicit exit code.
* `datetime.now()` and `get_current_charge()` (the `ioreg` subprocess) are
  ambient inputs of the pure model: `process_lines` receives the wall-clock
  time `now` and the live capacity reading (`none` = no `CurrentCapacity`
  field, the error branch of `get_current_charge`).
-/

/-- Output stream of a message: Python `print(...)` writes to `out`
(standard output); `print(..., file=sys.stderr)` writes to `err`. -/
inductive OutStream where
  | out
  | err
deriving DecidableEq

/-- One printed message, one constructor per `print` site in the source,
carrying the interpolated data. -/
inductive Msg where
  /-- `"Next best charge info is {} minutes off"` in `get_closest_event`;
  the argument is `min(delta_to_after, delta_to_before) // 60`. -/
  | gapWarning (minutes : Int)
  /-- `"Could not determine when the PC was last unplugged from AC."` -/
  | couldNotDetermineUnplug
  /-- `"Could not determine the state of the display when AC was unplugged."` -/
  | couldNotDetermineDisplay
  /-- `"Could not read current battery capacity"` in `get_current_charge`. -/
  | couldNotReadCapacity
  /-- The per-interval report line of the forward walk
  (`"{} to {}: Used {:>3}% of battery during {:>3}h {:>2}min of {}"`). -/
  | intervalReport (startTs endTs consumption hours minutes : Int) (label : String)
  /-- The final open-ended-tail report line
  (`"... during {:>3}h {:>2}min of usage"`). -/
  | finalReport (startTs endTs consumption hours minutes : Int)
  /-- `"\nSummary:"` -/
  | summaryHeader
  /-- `"Unplugged from AC on {} with {}% battery"` -/
  | unpluggedReport (ts charge : Int)
  /-- `"Used {:>3}% of battery during {:>3}h {:>2}min of active usage"` -/
  | usageTotals (consumption hours minutes : Int)
  /-- `"Used {:>3}% of battery during {:>3}h {:>2}min of sleep"` -/
  | sleepTotals (consumption hours minutes : Int)
  /-- `"\nStatistics:"` -/
  | statisticsHeader
  /-- `"{:.2f}%/h battery loss during usage"` -/
  | usageRate (rate : ℚ)
  /-- `"{:.2f}%/h battery loss during sleep"` -/
  | sleepRate (rate : ℚ)
deriving DecidableEq

/-- The power-source alternation `(?P<type>AC|Batt|BATT)` of `charge_regex`. -/
inductive PowerSource where
  | AC
  | Batt
  | BATT
deriving DecidableEq

/-- A raw log line, represented by the results of the only two regex matches
the script performs on it: `charge_regex.match(line)` and
`display_regex.match(line)`.  `chargeMatch = some (ts, typ, charge)` models a
successful charge match with converted timestamp `ts`, power source `typ` and
`int(match["charge"])` = `charge`; `displayMatch = some (ts, state)` models a
successful display match with state word `state`.  `none` models a failed
match. -/
structure LogLine where
  chargeMatch : Option (Int × PowerSource × Int)
  displayMatch : Option (Int × String)
deriving DecidableEq

/-- `bisect.bisect_left` specialized to the call site: the leftmost insertion
point of `x` in the ascending list `l` (the number of leading elements `< x`).
For the sorted lists the script passes, this equals Python's binary-search
result. -/
def bisect_left (l : List Int) (x : Int) : Nat :=
  match l with
  | [] => 0
  | a :: rest => if a < x then bisect_left rest x + 1 else 0

/-- The local `pos = bisect_left(timestamps_of_events, timestamp)` of
`get_closest_event` (with `timestamps_of_events = [event[0] for event in
events]`). -/
def closestPos (events : List (Int × Int)) (timestamp : Int) : Nat :=
  bisect_left (events.map Prod.fst) timestamp

/-- `get_closest_event(events, timestamp)` from the source.  First component:
the returned event (`none` models the `IndexError` that Python's `events[0]`
raises on an empty list); second component: the messages printed (the
`min(...) > 600` gap warning of the interior branch).  `events.head?` models
`events[0]` and `events.getLast?` models `events[-1]`. -/
def get_closest_event (events : List (Int × Int)) (timestamp : Int) :
    Option (Int × Int) × List Msg :=
  if closestPos events timestamp = 0 then
    (events.head?, [])
  else if closestPos events timestamp = events.length then
    (events.getLast?, [])
  else
    match events[closestPos events timestamp - 1]?, events[closestPos events timestamp]? with
    | some before, some after =>
      (if timestamp - before.1 < after.1 - timestamp then some before else some after,
       if 600 < min (after.1 - timestamp) (timestamp - before.1) then
         [Msg.gapWarning (Int.fdiv (min (after.1 - timestamp) (timestamp - before.1)) 60)]
       else [])
    | _, _ => (none, [])

/-- The backward boundary scan of `process_lines` (the
`for i, line in enumerate(reversed(pmset_lines)): ... else: ... exit(1)`
loop).  `rev` is the not-yet-scanned suffix of `reversed(pmset_lines)`, `i`
the current reversed index, `n = len(pmset_lines)`, `end_index` the current
value of the like-named variable, and `st = some (start_index, start_charge,
start_timestamp)` exactly when `seen_batt` is true (the source sets all four
together).  `some (end_index, start_index, start_charge, start_timestamp)`
models reaching the `break`; `none` models exhausting the loop, which runs
the `for`-`else` branch (error message and `sys.exit(1)`). -/
def scanRevAux (n : Nat) :
    List LogLine → Nat → Nat → Option (Nat × Int × Int) → Option (Nat × Nat × Int × Int)
  | [], _, _, _ => none
  | line :: rest, i, end_index, st =>
    match line.chargeMatch with
    | none => scanRevAux n rest (i + 1) end_index st
    | some (ts, typ, charge) =>
      if typ = PowerSource.AC then
        match st with
        | none => scanRevAux n rest (i + 1) (n - i - 1) none
        | some (start_index, start_charge, start_timestamp) =>
          some (end_index, start_index, start_charge, start_timestamp)
      else
        scanRevAux n rest (i + 1) end_index (some (n - i, charge, ts))

/-- The boundary detection of `process_lines` (lines 28-52): scan the lines in
reverse, starting with `seen_batt = False` and `end_index = len(pmset_lines)`. -/
def boundaryScan (pmset_lines : List LogLine) : Option (Nat × Nat × Int × Int) :=
  scanRevAux pmset_lines.length pmset_lines.reverse 0 pmset_lines.length none

/-- The second backward scan of `process_lines` (lines 54-61): the first
display match in `reversed(pmset_lines[:start_index])`, keeping only the
`state` group; `none` models the `for`-`else` error exit. -/
def findStartDisplay (pmset_lines : List LogLine) (start_index : Nat) : Option String :=
  ((pmset_lines.take start_index).reverse.findSome? fun l => l.displayMatch).map Prod.snd

/-- The charge-event extraction of `process_lines` (lines 63-66):
`charge_regex.findall` over the joined slice `pmset_lines[start_index - 1:]`,
keeping `(timestamp, charge)` pairs.  (Each pmset log line contains at most
one charge pattern occurrence, at the line start, so `findall` on the joined
slice yields exactly the per-line matches.) -/
def chargeEventsFrom (pmset_lines : List LogLine) (start_index : Nat) : List (Int × Int) :=
  (pmset_lines.drop (start_index - 1)).filterMap fun l =>
    l.chargeMatch.map fun m => (m.1, m.2.2)

/-- The mutable state of the forward interval walk of `process_lines`
(lines 68-107): the two trackers, the four running totals, and the messages
printed so far (in print order). -/
structure WalkState where
  current_display_state : String
  last_display_switch : Int
  total_time_with_display_on : Int
  total_time_with_display_off : Int
  total_consumption_with_display_on : Int
  total_consumption_with_display_off : Int
  msgs : List Msg
deriving DecidableEq

/-- One iteration of the forward walk loop of `process_lines` (lines 75-107)
on a single line.  Non-display lines and display lines whose state equals
`current_display_state` leave the state unchanged (`continue`).  Otherwise
the interval duration and consumption are computed (the two
`get_closest_event` calls may each print a gap warning, in call order), the
per-interval report is printed when `duration > 300` — its label computed
from the already-updated `current_display_state` — and the totals of the
bucket selected by the updated state are increased.  `none` models the
`IndexError` a lookup on an empty `charge_events` would raise. -/
def walkStep (charge_events : List (Int × Int)) (st : WalkState) (line : LogLine) :
    Option WalkState :=
  match line.displayMatch with
  | none => some st
  | some (new_timestamp, new_display_state) =>
    if new_display_state = st.current_display_state then some st
    else
      match get_closest_event charge_events st.last_display_switch,
            get_closest_event charge_events new_timestamp with
      | (some e1, w1), (some e2, w2) =>
        some
          { current_display_state := new_display_state
            last_display_switch := new_timestamp
            total_time_with_display_on :=
              if new_display_state = "on" then st.total_time_with_display_on
              else st.total_time_with_display_on + (new_timestamp - st.last_display_switch)
            total_time_with_display_off :=
              if new_display_state = "on" then
                st.total_time_with_display_off + (new_timestamp - st.last_display_switch)
              else st.total_time_with_display_off
            total_consumption_with_display_on :=
              if new_display_state = "on" then st.total_consumption_with_display_on
              else st.total_consumption_with_display_on + (e1.2 - e2.2)
            total_consumption_with_display_off :=
              if new_display_state = "on" then
                st.total_consumption_with_display_off + (e1.2 - e2.2)
              else st.total_consumption_with_display_off
            msgs := st.msgs ++ w1 ++ w2 ++
              (if 300 < new_timestamp - st.last_display_switch then
                [Msg.intervalReport st.last_display_switch new_timestamp (e1.2 - e2.2)
                  (Int.tdiv (new_timestamp - st.last_display_switch) 3600)
                  (Int.tdiv (Int.emod (new_timestamp - st.last_display_switch) 3600) 60)
                  (if new_display_state = "on" then "sleep" else "usage")]
              else []) }
      | (none, _), _ => none
      | _, (none, _) => none

/-- The forward walk: fold `walkStep` over `pmset_lines[start_index:end_index]`. -/
def walk (charge_events : List (Int × Int)) : WalkState → List LogLine → Option WalkState
  | st, [] => some st
  | st, line :: rest =>
    match walkStep charge_events st line with
    | none => none
    | some st2 => walk charge_events st2 rest

/-- The summary and statistics block of `process_lines` (lines 128-159), as
the list of messages it prints.  `Int.tdiv`/`Int.emod` model Python's
`int(t / 3600)` / `t % 3600`; the `%/h` rates carry the zero-duration guard. -/
def summaryMsgs (start_timestamp start_charge c_on t_on c_off t_off : Int) : List Msg :=
  [Msg.summaryHeader,
   Msg.unpluggedReport start_timestamp start_charge,
   Msg.usageTotals c_on (Int.tdiv t_on 3600) (Int.tdiv (Int.emod t_on 3600) 60),
   Msg.sleepTotals c_off (Int.tdiv t_off 3600) (Int.tdiv (Int.emod t_off 3600) 60),
   Msg.statisticsHeader,
   Msg.usageRate (if 0 < t_on then (c_on : ℚ) / ((t_on : ℚ) / 3600) else 0),
   Msg.sleepRate (if 0 < t_off then (c_off : ℚ) / ((t_off : ℚ) / 3600) else 0)]

/-- The observable outcome of one `process_lines` run: the printed messages,
each tagged with its stream, and the exit status (`1` for the `sys.exit(1)`
paths, `0` for a normal return). -/
structure ProcOutput where
  msgs : List (OutStream × Msg)
  exitCode : Nat
deriving DecidableEq

/-- `process_lines(pmset_lines)` from the source, with the two ambient
effects passed in: `now` is `datetime.now()` and `currentCapacity` the
`CurrentCapacity` value `get_current_charge` would read (`none` = field
absent, its error branch).  Every `print` in `process_lines` and its callees
is a plain `print(...)`, so every message is tagged `OutStream.out`.
`none` models an uncaught exception (never reached on inputs the boundary
scan accepts). -/
def process_lines (pmset_lines : List LogLine) (now : Int) (currentCapacity : Option Int) :
    Option ProcOutput :=
  match boundaryScan pmset_lines with
  | none => some ⟨[(OutStream.out, Msg.couldNotDetermineUnplug)], 1⟩
  | some (end_index, start_index, start_charge, start_timestamp) =>
    match findStartDisplay pmset_lines start_index with
    | none => some ⟨[(OutStream.out, Msg.couldNotDetermineDisplay)], 1⟩
    | some start_display_state =>
      match walk (chargeEventsFrom pmset_lines start_index)
          ⟨start_display_state, start_timestamp, 0, 0, 0, 0, []⟩
          ((pmset_lines.drop start_index).take (end_index - start_index)) with
      | none => none
      | some st =>
        if end_index = pmset_lines.length then
          match get_closest_event (chargeEventsFrom pmset_lines start_index)
              st.last_display_switch with
          | (none, _) => none
          | (some e, w) =>
            match currentCapacity with
            | none =>
              some ⟨(st.msgs ++ w ++ [Msg.couldNotReadCapacity]).map
                fun m => (OutStream.out, m), 1⟩
            | some cc =>
              some ⟨(st.msgs ++ w ++
                [Msg.finalReport st.last_display_switch now (e.2 - cc)
                  (Int.tdiv (now - st.last_display_switch) 3600)
                  (Int.tdiv (Int.emod (now - st.last_display_switch) 3600) 60)] ++
                summaryMsgs start_timestamp start_charge
                  (st.total_consumption_with_display_on + (e.2 - cc))
                  (st.total_time_with_display_on + (now - st.last_display_switch))
                  st.total_consumption_with_display_off
                  st.total_time_with_display_off).map fun m => (OutStream.out, m), 0⟩
        else
          some ⟨(st.msgs ++
            summaryMsgs start_timestamp start_charge
              st.total_consumption_with_display_on st.total_time_with_display_on
              st.total_consumption_with_display_off st.total_time_with_display_off).map
            fun m => (OutStream.out, m), 0⟩

/-- The `\s` character class of Python `re` on ASCII input
(`[ \t\n\r\f\v]`). -/
def isSpaceChar (c : Char) : Bool :=
  c == ' ' || c == '\t' || c == '\n' || c == '\r' || c == '\x0b' || c == '\x0c'

/-- The captured-group part of `TIMESTAMP_REGEX`:
`(?P<timestamp>\d{4}-\d{2}-\d{2}\s\d{2}:\d{2}:\d{2})`, tested on its 19
characters. -/
def tsCoreOK (c0 c1 c2 c3 c4 c5 c6 c7 c8 c9 c10 c11 c12 c13 c14 c15 c16 c17 c18 : Char) :
    Bool :=
  c0.isDigit && c1.isDigit && c2.isDigit && c3.isDigit && c4 == '-' &&
  c5.isDigit && c6.isDigit && c7 == '-' && c8.isDigit && c9.isDigit &&
  isSpaceChar c10 && c11.isDigit && c12.isDigit && c13 == ':' &&
  c14.isDigit && c15.isDigit && c16 == ':' && c17.isDigit && c18.isDigit

/-- The non-captured tail of `TIMESTAMP_REGEX`: `\s[+-]\d{4}` (whitespace,
sign, four offset digits). -/
def offsetOK (w s o1 o2 o3 o4 : Char) : Bool :=
  isSpaceChar w && (s == '+' || s == '-') && o1.isDigit && o2.isDigit && o3.isDigit && o4.isDigit

/-- `TIMESTAMP_REGEX` matched at the start of a line (both `charge_regex` and
`display_regex` begin with it, and both are applied with `re.match`, anchored
at the line start): on success, returns the captured `timestamp` group — the
19 characters `YYYY-MM-DD HH:MM:SS`, the only part `convert_timestamp` ever
receives — and the characters after the UTC-offset field, the only part the
rest of either regex ever examines.  The offset field itself is consumed but
captured by no group. -/
def matchTimestampHead (cs : List Char) : Option (List Char × List Char) :=
  match cs with
  | c0 :: c1 :: c2 :: c3 :: c4 :: c5 :: c6 :: c7 :: c8 :: c9 :: c10 :: c11 :: c12 :: c13 ::
      c14 :: c15 :: c16 :: c17 :: c18 :: w :: s :: o1 :: o2 :: o3 :: o4 :: rest =>
    if tsCoreOK c0 c1 c2 c3 c4 c5 c6 c7 c8 c9 c10 c11 c12 c13 c14 c15 c16 c17 c18 &&
        offsetOK w s o1 o2 o3 o4 then
      some ([c0, c1, c2, c3, c4, c5, c6, c7, c8, c9, c10, c11, c12, c13, c14, c15, c16,
        c17, c18], rest)
    else none
  | _ => none

/-- The power-source type a line's charge match carries, if any. -/
def chargeType (l : LogLine) : Option PowerSource :=
  l.chargeMatch.map fun m => m.2.1

/-- The timestamps of the display matches of a line sequence, in order. -/
def displayTimestamps (lines : List LogLine) : List Int :=
  lines.filterMap fun l => l.displayMatch.map Prod.fst

/-! ## Lemmas about `bisect_left` and `get_closest_event` -/

theorem bisect_left_le_length (l : List Int) (x : Int) : bisect_left l x ≤ l.length := by
  induction l with
  | nil => simp [bisect_left]
  | cons a rest ih =>
    simp only [bisect_left, List.length_cons]
    split <;> omega

theorem bisect_left_head_of_le (t : Int) (rest : List Int) (x : Int) (h : x ≤ t) :
    bisect_left (t :: rest) x = 0 := by
  simp [bisect_left, not_lt.mpr h]

theorem bisect_left_append_of_lt (l₁ l₂ : List Int) (x : Int) (h : ∀ t ∈ l₁, t < x) :
    bisect_left (l₁ ++ l₂) x = l₁.length + bisect_left l₂ x := by
  induction l₁ with
  | nil => simp
  | cons a rest ih =>
    have ha : a < x := h a (by simp)
    simp only [List.cons_append, bisect_left, if_pos ha, List.length_cons, List.append_eq]
    rw [ih fun t ht => h t (by simp [ht])]
    omega

theorem bisect_left_all_lt (l : List Int) (x : Int) (h : ∀ t ∈ l, t < x) :
    bisect_left l x = l.length := by
  simpa using bisect_left_append_of_lt l [] x h

/-- When the query is at or before the first timestamp, the insertion point is
`0` and `get_closest_event` returns the first event, printing nothing. -/
theorem get_closest_event_head (e : Int × Int) (rest : List (Int × Int)) (q : Int)
    (h : q ≤ e.1) : get_closest_event (e :: rest) q = (some e, []) := by
  have hpos : closestPos (e :: rest) q = 0 := by
    simp only [closestPos, List.map_cons]
    exact bisect_left_head_of_le _ _ _ h
  simp [get_closest_event, hpos]

/-- When the query is strictly after every timestamp, the insertion point is
the length and `get_closest_event` returns the last event, printing nothing. -/
theorem get_closest_event_last (events : List (Int × Int)) (q : Int)
    (hne : events ≠ []) (h : ∀ e ∈ events, e.1 < q) :
    get_closest_event events q = (events.getLast?, []) := by
  have hpos : closestPos events q = events.length := by
    have : ∀ t ∈ events.map Prod.fst, t < q := by
      intro t ht
      obtain ⟨e, he, rfl⟩ := List.mem_map.mp ht
      exact h e he
    simpa [closestPos] using bisect_left_all_lt _ q this
  have hlen : events.length ≠ 0 := by
    simpa [List.length_eq_zero] using hne
  unfold get_closest_event
  rw [hpos, if_neg hlen, if_pos rfl]

/-- The interior branch of `get_closest_event`: if the sorted list decomposes
as `l₁ ++ b :: a :: l₂` with `b.1 < q ≤ a.1`, the insertion point lands on
`a`, the candidates are `b` ("before") and `a` ("after"), the tie-break is
`delta_to_before < delta_to_after`, and the gap warning fires exactly when
the smaller delta exceeds 600 seconds. -/
theorem get_closest_event_interior (l₁ : List (Int × Int)) (b a : Int × Int)
    (l₂ : List (Int × Int)) (q : Int)
    (hs : (l₁ ++ b :: a :: l₂).Pairwise fun x y => x.1 < y.1)
    (hb : b.1 < q) (ha : q ≤ a.1) :
    get_closest_event (l₁ ++ b :: a :: l₂) q =
      (if q - b.1 < a.1 - q then some b else some a,
       if 600 < min (a.1 - q) (q - b.1) then
         [Msg.gapWarning (Int.fdiv (min (a.1 - q) (q - b.1)) 60)]
       else []) := by
  have hl₁ : ∀ t ∈ l₁.map Prod.fst, t < q := by
    intro t ht
    obtain ⟨e, he, rfl⟩ := List.mem_map.mp ht
    have : e.1 < b.1 := (List.pairwise_append.mp hs).2.2 e he b (by simp)
    omega
  have hpos : closestPos (l₁ ++ b :: a :: l₂) q = l₁.length + 1 := by
    simp only [closestPos, List.map_append, List.map_cons]
    rw [bisect_left_append_of_lt _ _ _ hl₁]
    have hcons : bisect_left (b.1 :: a.1 :: l₂.map Prod.fst) q =
        bisect_left (a.1 :: l₂.map Prod.fst) q + 1 := by
      simp [bisect_left, hb]
    rw [hcons, bisect_left_head_of_le _ _ _ ha]
    simp
  have h1 : (l₁ ++ b :: a :: l₂)[l₁.length + 1 - 1]? = some b := by
    simp only [Nat.add_sub_cancel]
    rw [List.getElem?_append_right (le_refl l₁.length)]
    simp
  have h2 : (l₁ ++ b :: a :: l₂)[l₁.length + 1]? = some a := by
    rw [List.getElem?_append_right (by omega)]
    simp [Nat.add_sub_cancel_left]
  have hlen : (l₁ ++ b :: a :: l₂).length = l₁.length + l₂.length + 2 := by
    simp [List.length_append]
    omega
  unfold get_closest_event
  rw [hpos, if_neg (by omega), if_neg (by omega), h1, h2]

/-! ## Claim C1: contract of the nearest-timestamp lookup -/

/-- C1: for every charge-event list sorted strictly ascending by timestamp,
`get_closest_event` returns (1) the event at `t_i` when queried exactly at
`t_i`, (2) the first event when queried before all timestamps, (3) the last
event when queried after all timestamps, and (4) the later ("after") event
when the query has exactly equal distances to two adjacent events — the tie
falls to "after" because the comparison is `delta_to_before <
delta_to_after`. -/
theorem closest_event_c1 (events : List (Int × Int))
    (hs : events.Pairwise fun x y => x.1 < y.1) :
    (∀ l₁ e l₂, events = l₁ ++ e :: l₂ → (get_closest_event events e.1).1 = some e) ∧
    (∀ e rest q, events = e :: rest → q < e.1 → (get_closest_event events q).1 = some e) ∧
    (∀ l₁ e q, events = l₁ ++ [e] → e.1 < q → (get_closest_event events q).1 = some e) ∧
    (∀ l₁ b a l₂ q, events = l₁ ++ b :: a :: l₂ → q - b.1 = a.1 - q →
      (get_closest_event events q).1 = some a) := by
  refine ⟨?_, ?_, ?_, ?_⟩
  · rintro l₁ e l₂ rfl
    rcases List.eq_nil_or_concat l₁ with rfl | ⟨l₁', b, rfl⟩
    · rw [List.nil_append, get_closest_event_head e l₂ e.1 le_rfl]
    · have hshape : l₁'.concat b ++ e :: l₂ = l₁' ++ b :: e :: l₂ := by
        simp [List.concat_eq_append]
      rw [hshape] at hs ⊢
      have hb : b.1 < e.1 := by
        have := (List.pairwise_append.mp hs).2.1
        exact (List.pairwise_cons.mp this).1 e (by simp)
      rw [get_closest_event_interior l₁' b e l₂ e.1 hs hb le_rfl]
      simp only
      rw [if_neg (by omega)]
  · rintro e rest q rfl hq
    rw [get_closest_event_head e rest q (le_of_lt hq)]
  · rintro l₁ e q rfl hq
    have hall : ∀ x ∈ l₁ ++ [e], x.1 < q := by
      intro x hx
      rcases List.mem_append.mp hx with hx₁ | hx₂
      · have : x.1 < e.1 := (List.pairwise_append.mp hs).2.2 x hx₁ e (by simp)
        omega
      · simp only [List.mem_singleton] at hx₂
        subst hx₂
        exact hq
    rw [get_closest_event_last (l₁ ++ [e]) q (by simp) hall]
    simp
  · rintro l₁ b a l₂ q rfl htie
    have hba : b.1 < a.1 := by
      have := (List.pairwise_append.mp hs).2.1
      exact (List.pairwise_cons.mp this).1 a (by simp)
    have hb : b.1 < q := by omega
    have ha : q ≤ a.1 := by omega
    rw [get_closest_event_interior l₁ b a l₂ q hs hb ha]
    simp only
    rw [if_neg (by omega)]

/-- Witness for C1 on the concrete sorted list
`[(0,50), (10,40), (20,30)]`: exact hit at 10, query before all at -5,
query after all at 25, and the exact midpoint 5 between 0 and 10 (returns
the after event `(10,40)`). -/
theorem closest_event_c1_witness :
    (get_closest_event [(0, 50), (10, 40), (20, 30)] 10).1 = some (10, 40) ∧
    (get_closest_event [(0, 50), (10, 40), (20, 30)] (-5)).1 = some (0, 50) ∧
    (get_closest_event [(0, 50), (10, 40), (20, 30)] 25).1 = some (20, 30) ∧
    (get_closest_event [(0, 50), (10, 40), (20, 30)] 5).1 = some (10, 40) := by
  have h := closest_event_c1 [(0, 50), (10, 40), (20, 30)] (by decide)
  exact ⟨h.1 [(0, 50)] (10, 40) [(20, 30)] rfl,
         h.2.1 (0, 50) [(10, 40), (20, 30)] (-5) rfl (by decide),
         h.2.2.1 [(0, 50), (10, 40)] (20, 30) 25 rfl (by decide),
         h.2.2.2 [] (0, 50) (10, 40) [(20, 30)] 5 rfl (by decide)⟩

/-! ## Claim C2: lookup on the empty charge-event list -/

/-- C2 counterexample: on the empty charge-event list the lookup does NOT
tolerate the input — `pos = bisect_left([], t) = 0` sends it to the
`return events[0]` branch, and `events[0]` on an empty list raises
`IndexError` (modelled by `none`, see `get_closest_event`).  This refutes
"it does not raise an error". -/
theorem closest_event_c2_cex : (get_closest_event ([] : List (Int × Int)) 0).1 = none := by
  decide

/-- C2 amended: the lookup raises `IndexError` on the empty list (previous
theorem); on every NON-empty charge-event list it returns an event for every
query timestamp, without any error. -/
theorem closest_event_c2 (events : List (Int × Int)) (q : Int) (hne : events ≠ []) :
    ((get_closest_event events q).1).isSome = true := by
  have hle : closestPos events q ≤ events.length := by
    simpa [closestPos] using bisect_left_le_length (events.map Prod.fst) q
  unfold get_closest_event
  split
  · cases events with
    | nil => exact absurd rfl hne
    | cons e rest => simp
  · split
    · rename_i hlen
      simp [List.getLast?_isSome, hne]
    · rename_i h0 hlen
      have hlt : closestPos events q < events.length := lt_of_le_of_ne hle hlen
      have h1lt : closestPos events q - 1 < events.length := by omega
      rw [List.getElem?_eq_getElem hlt, List.getElem?_eq_getElem h1lt]
      simp only
      split <;> simp

/-- Witness for C2 (amended) at a concrete non-empty list. -/
theorem closest_event_c2_witness :
    ((get_closest_event [((0 : Int), (50 : Int))] 7).1).isSome = true :=
  closest_event_c2 [(0, 50)] 7 (by decide)

/-! ## Claim C6: the 600-second gap diagnostic -/

/-- C6 counterexample: the gap diagnostic is NOT emitted for queries that
fall before the first event (or after the last): querying at -10000 against
`[(0,50), (10000,40)]` has its nearest event 10000 seconds away (far beyond
600), yet the lookup returns the first event with an empty message list —
the `min(...) > 600` check lives only in the interior branch. -/
theorem closest_event_c6_cex :
    get_closest_event [(0, 50), (10000, 40)] (-10000) = (some (0, 50), []) ∧
    (600 : Int) < 0 - (-10000) := by
  decide

/-- C6 amended: the non-fatal gap diagnostic (gap in minutes, `min // 60`)
is emitted EXACTLY when the query falls strictly between two adjacent events
of the sorted list and the smaller of the two deltas exceeds 600 seconds.
The first conjunct characterizes every interior query completely: the
returned event is always the nearest one (per the `delta_to_before <
delta_to_after` tie-break), while the message list is the warning when
`600 < min(delta_to_after, delta_to_before)` and empty otherwise — so the
diagnostic never alters the returned value, and interior queries with the
smaller delta at most 600 (interior exact hits included, their minimum delta
being 0) emit nothing.  The remaining conjuncts cover every other query:
at or before the first timestamp the first event is returned with no
diagnostic, and after all timestamps the last event, with no diagnostic —
regardless of the gap. -/
theorem closest_event_c6 :
    (∀ (l₁ : List (Int × Int)) (b a : Int × Int) (l₂ : List (Int × Int)) (q : Int),
      (l₁ ++ b :: a :: l₂).Pairwise (fun x y => x.1 < y.1) → b.1 < q → q ≤ a.1 →
      get_closest_event (l₁ ++ b :: a :: l₂) q =
        (if q - b.1 < a.1 - q then some b else some a,
         if 600 < min (a.1 - q) (q - b.1) then
           [Msg.gapWarning (Int.fdiv (min (a.1 - q) (q - b.1)) 60)]
         else [])) ∧
    (∀ (e : Int × Int) (rest : List (Int × Int)) (q : Int), q ≤ e.1 →
      get_closest_event (e :: rest) q = (some e, [])) ∧
    (∀ (events : List (Int × Int)) (q : Int), events ≠ [] → (∀ e ∈ events, e.1 < q) →
      get_closest_event events q = (events.getLast?, [])) :=
  ⟨get_closest_event_interior, get_closest_event_head, get_closest_event_last⟩

/-- Witness for C6 (amended), both emission directions: the interior query
at 1000 between 0 and 2000 has both deltas 1000 > 600, so the warning
`1000 // 60 = 16` minutes is emitted and the "after" event returned (equal
deltas fall to "after"); the interior query at 400 between 0 and 700 has
smaller delta 300 ≤ 600, so the nearest event is returned with NO warning. -/
theorem closest_event_c6_witness :
    get_closest_event [(0, 50), (2000, 40)] 1000 = (some (2000, 40), [Msg.gapWarning 16]) ∧
    get_closest_event [(0, 50), (700, 40)] 400 = (some (700, 40), []) := by
  have h1 := closest_event_c6.1 [] (0, 50) (2000, 40) [] 1000 (by decide) (by decide)
    (by decide)
  have h2 := closest_event_c6.1 [] (0, 50) (700, 40) [] 400 (by decide) (by decide)
    (by decide)
  rw [List.nil_append] at h1 h2
  constructor
  · rw [h1]
    decide
  · rw [h2]
    decide

/-! ## Claim C3: boundary detection on logs that begin mid-session -/

/-- If no remaining reversed line has an AC charge match, the backward scan
can never reach the `break` (which fires only on an AC match with
`seen_batt` true), so it exhausts the loop and lands in the `for`-`else`
failure — whatever the current scan state. -/
theorem scanRevAux_none_of_no_AC (n : Nat) (r : List LogLine) :
    (∀ l ∈ r, chargeType l ≠ some PowerSource.AC) →
    ∀ i e st, scanRevAux n r i e st = none := by
  induction r with
  | nil => intro _ i e st; rfl
  | cons l rest ih =>
    intro h i e st
    cases hc : l.chargeMatch with
    | none =>
      simp only [scanRevAux, hc]
      exact ih (fun l' hl' => h l' (by simp [hl'])) _ _ _
    | some m =>
      obtain ⟨ts, typ, ch⟩ := m
      have hct : chargeType l = some typ := by simp [chargeType, hc]
      have hne : typ ≠ PowerSource.AC := fun hEq => h l (by simp) (by rw [hct, hEq])
      simp only [scanRevAux, hc, if_neg hne]
      exact ih (fun l' hl' => h l' (by simp [hl'])) _ _ _

/-- A reversed scan over a leading block whose charge matches are all AC
(the still-plugged-in tail of the log) keeps `seen_batt` false; if the rest
of the reversed log then contains no AC charge match at all, the scan fails. -/
theorem scanRevAux_none_midsession (n : Nat) (r₁ : List LogLine) :
    (∀ l ∈ r₁, chargeType l = some PowerSource.AC ∨ chargeType l = none) →
    ∀ r₂, (∀ l ∈ r₂, chargeType l ≠ some PowerSource.AC) →
    ∀ i e, scanRevAux n (r₁ ++ r₂) i e none = none := by
  induction r₁ with
  | nil => intro _ r₂ h₂ i e; exact scanRevAux_none_of_no_AC n r₂ h₂ i e none
  | cons l rest ih =>
    intro h₁ r₂ h₂ i e
    cases hc : l.chargeMatch with
    | none =>
      simp only [List.cons_append, scanRevAux, hc]
      exact ih (fun l' hl' => h₁ l' (by simp [hl'])) r₂ h₂ _ _
    | some m =>
      obtain ⟨ts, typ, ch⟩ := m
      have hct : chargeType l = some typ := by simp [chargeType, hc]
      have hAC : typ = PowerSource.AC := by
        rcases h₁ l (by simp) with h' | h' <;> rw [hct] at h'
        · exact Option.some.inj h'
        · exact absurd h' (by simp)
      simp only [List.cons_append, scanRevAux, hc, if_pos hAC]
      exact ih (fun l' hl' => h₁ l' (by simp [hl'])) r₂ h₂ _ _

/-- C3 counterexample: a log that begins mid-session — here a single Battery
charge event, so the scan does find a Battery start candidate and no AC event
precedes it — does NOT succeed with the log start as boundary: `process_lines`
prints the "could not determine last unplug" message and exits 1.  (The
backward loop only `break`s on an AC event seen after a Battery event; with
no such AC event it exhausts the lines and Python's `for`-`else` runs the
failure branch, even though `seen_batt` is true and a start was recorded.) -/
theorem process_lines_c3_cex :
    process_lines [⟨some (0, PowerSource.Batt, 95), none⟩] 10 none =
      some ⟨[(OutStream.out, Msg.couldNotDetermineUnplug)], 1⟩ := by
  decide

/-- C3 amended: for every log that begins mid-session — its reversed line
sequence is a (possibly empty) plugged-in tail whose charge matches are all
AC, followed by lines with no AC charge match at all (so no AC event precedes
any Battery event) — boundary detection FAILS with the "could not determine
last unplug" error and exit status 1, Battery events present or not; it never
takes the start of the log as the session boundary.  The scan succeeds only
when an AC charge event precedes a Battery charge event in the log. -/
theorem process_lines_c3 (pmset_lines : List LogLine) (now : Int) (cap : Option Int)
    (r₁ r₂ : List LogLine) (hrev : pmset_lines.reverse = r₁ ++ r₂)
    (h₁ : ∀ l ∈ r₁, chargeType l = some PowerSource.AC ∨ chargeType l = none)
    (h₂ : ∀ l ∈ r₂, chargeType l ≠ some PowerSource.AC) :
    process_lines pmset_lines now cap =
      some ⟨[(OutStream.out, Msg.couldNotDetermineUnplug)], 1⟩ := by
  have hbs : boundaryScan pmset_lines = none := by
    unfold boundaryScan
    rw [hrev]
    exact scanRevAux_none_midsession _ r₁ h₁ r₂ h₂ 0 _
  unfold process_lines
  rw [hbs]

/-- Witness for C3 (amended): a Battery event followed by a trailing AC
event — still no AC before the Battery event — fails with the unplug error. -/
theorem process_lines_c3_witness :
    process_lines [⟨some (5, PowerSource.Batt, 80), none⟩,
        ⟨some (9, PowerSource.AC, 100), none⟩] 3 none =
      some ⟨[(OutStream.out, Msg.couldNotDetermineUnplug)], 1⟩ :=
  process_lines_c3 _ 3 none [⟨some (9, PowerSource.AC, 100), none⟩]
    [⟨some (5, PowerSource.Batt, 80), none⟩] (by decide) (by decide) (by decide)

/-! ## Claim C4: label and bucket both follow the state being entered -/

/-- C4: for every processed display transition (state `s` entered at `ts`),
the per-interval report — emitted exactly when the duration exceeds 300
seconds — labels the just-ended interval `"sleep"` exactly when the state
being entered is `"on"` (and `"usage"` otherwise), and for every processed
transition, printed or not, the interval's consumption and duration are
added to the display-OFF totals exactly when the entered state is `"on"`,
and to the display-ON totals otherwise: label and bucket both follow the
state being entered, because the source updates `current_display_state`
before the report and the accumulation. -/
theorem walk_step_c4 (charge_events : List (Int × Int)) (st : WalkState) (line : LogLine)
    (ts : Int) (s : String) (e1 e2 : Int × Int) (w1 w2 : List Msg) (st' : WalkState)
    (hd : line.displayMatch = some (ts, s))
    (hne : s ≠ st.current_display_state)
    (h1 : get_closest_event charge_events st.last_display_switch = (some e1, w1))
    (h2 : get_closest_event charge_events ts = (some e2, w2))
    (hstep : walkStep charge_events st line = some st') :
    ((s = "on" →
        st'.total_consumption_with_display_off
          = st.total_consumption_with_display_off + (e1.2 - e2.2) ∧
        st'.total_time_with_display_off
          = st.total_time_with_display_off + (ts - st.last_display_switch) ∧
        st'.total_consumption_with_display_on = st.total_consumption_with_display_on ∧
        st'.total_time_with_display_on = st.total_time_with_display_on) ∧
     (s ≠ "on" →
        st'.total_consumption_with_display_on
          = st.total_consumption_with_display_on + (e1.2 - e2.2) ∧
        st'.total_time_with_display_on
          = st.total_time_with_display_on + (ts - st.last_display_switch) ∧
        st'.total_consumption_with_display_off = st.total_consumption_with_display_off ∧
        st'.total_time_with_display_off = st.total_time_with_display_off)) ∧
    (300 < ts - st.last_display_switch →
      st'.msgs = st.msgs ++ w1 ++ w2 ++
        [Msg.intervalReport st.last_display_switch ts (e1.2 - e2.2)
          (Int.tdiv (ts - st.last_display_switch) 3600)
          (Int.tdiv (Int.emod (ts - st.last_display_switch) 3600) 60)
          (if s = "on" then "sleep" else "usage")]) ∧
    (¬ 300 < ts - st.last_display_switch → st'.msgs = st.msgs ++ w1 ++ w2) := by
  simp only [walkStep, hd, if_neg hne, h1, h2] at hstep
  have hR := Option.some.inj hstep
  subst hR
  refine ⟨⟨fun hson => ?_, fun hson => ?_⟩, fun hdur => ?_, fun hdur => ?_⟩
  · simp [hson]
  · simp [hson]
  · simp [hdur]
  · simp [hdur]

/-- Witness for C4: entering `"off"` at 400 from `"on"` entered at 0, with
charge 50 at 0 and 45 at 400: duration 400 > 300, so the report line is
emitted with label `"usage"` (state entered is not `"on"`), and duration and
consumption go to the display-ON totals. -/
theorem walk_step_c4_witness :
    ((("off" : String) = "on" → (0 : Int) = 0 + (50 - 45) ∧ (0 : Int) = 0 + (400 - 0) ∧
        (5 : Int) = 0 ∧ (400 : Int) = 0) ∧
     (("off" : String) ≠ "on" → (5 : Int) = 0 + (50 - 45) ∧ (400 : Int) = 0 + (400 - 0) ∧
        (0 : Int) = 0 ∧ (0 : Int) = 0)) ∧
    ((300 : Int) < 400 - 0 →
      ([Msg.intervalReport 0 400 5 0 6 "usage"] : List Msg) = [] ++ [] ++ [] ++
        [Msg.intervalReport 0 400 (50 - 45) (Int.tdiv (400 - 0) 3600)
          (Int.tdiv (Int.emod (400 - 0) 3600) 60)
          (if ("off" : String) = "on" then "sleep" else "usage")]) ∧
    (¬ (300 : Int) < 400 - 0 →
      ([Msg.intervalReport 0 400 5 0 6 "usage"] : List Msg) = [] ++ [] ++ []) := by
  exact walk_step_c4 [(0, 50), (400, 45)] ⟨"on", 0, 0, 0, 0, 0, []⟩
    ⟨none, some (400, "off")⟩ 400 "off" (0, 50) (400, 45) [] []
    ⟨"off", 400, 400, 0, 5, 0, [Msg.intervalReport 0 400 5 0 6 "usage"]⟩
    rfl (by decide) (by decide) (by decide) (by decide)

/-! ## Claim C5: interval durations telescope -/

/-- One step of the walk preserves `t_on + t_off − last_display_switch`:
non-matching lines and unchanged-state lines alter nothing, and a processed
transition adds exactly `new_timestamp − last_display_switch` to one time
bucket while advancing `last_display_switch` to `new_timestamp`. -/
theorem walkStep_time_invariant (charge_events : List (Int × Int)) (st : WalkState)
    (line : LogLine) (st2 : WalkState) (h : walkStep charge_events st line = some st2) :
    st2.total_time_with_display_on + st2.total_time_with_display_off
        - st2.last_display_switch
      = st.total_time_with_display_on + st.total_time_with_display_off
        - st.last_display_switch := by
  cases hd : line.displayMatch with
  | none =>
    simp only [walkStep, hd] at h
    have hR := Option.some.inj h
    subst hR
    rfl
  | some p =>
    obtain ⟨ts, s⟩ := p
    by_cases hne : s = st.current_display_state
    · simp only [walkStep, hd, if_pos hne] at h
      have hR := Option.some.inj h
      subst hR
      rfl
    · rcases hx : get_closest_event charge_events st.last_display_switch with ⟨o1, w1⟩
      rcases hy : get_closest_event charge_events ts with ⟨o2, w2⟩
      cases o1 with
      | none =>
        simp only [walkStep, hd, if_neg hne, hx] at h
        exact Option.noConfusion h
      | some e1 =>
        cases o2 with
        | none =>
          simp only [walkStep, hd, if_neg hne, hx, hy] at h
          exact Option.noConfusion h
        | some e2 =>
          simp only [walkStep, hd, if_neg hne, hx, hy] at h
          have hR := Option.some.inj h
          subst hR
          by_cases hson : s = "on" <;> simp [hson] <;> ring

/-- The walk-level telescoping invariant, by induction along the lines. -/
theorem walk_time_telescope (charge_events : List (Int × Int)) (lines : List LogLine) :
    ∀ st st', walk charge_events st lines = some st' →
      st'.total_time_with_display_on + st'.total_time_with_display_off
          - st'.last_display_switch
        = st.total_time_with_display_on + st.total_time_with_display_off
          - st.last_display_switch := by
  induction lines with
  | nil =>
    intro st st' h
    simp only [walk] at h
    have hR := Option.some.inj h
    subst hR
    rfl
  | cons line rest ih =>
    intro st st' h
    simp only [walk] at h
    cases hstep : walkStep charge_events st line with
    | none => rw [hstep] at h; exact Option.noConfusion h
    | some st2 =>
      rw [hstep] at h
      rw [ih st2 st' h]
      exact walkStep_time_invariant charge_events st line st2 hstep

/-- C5: starting the forward walk from any `start_timestamp` with zeroed
totals, the sum of ALL interval durations it accumulates — the sub-300-second
ones included, since accumulation is unconditional — equals the final
`last_display_switch` (the timestamp of the last processed transition, the
end of the walked session) minus `start_timestamp`: each interval starts at
the previous interval's end, so the durations telescope exactly. -/
theorem walk_c5 (charge_events : List (Int × Int)) (lines : List LogLine)
    (start_display_state : String) (start_timestamp : Int) (st' : WalkState)
    (h : walk charge_events ⟨start_display_state, start_timestamp, 0, 0, 0, 0, []⟩ lines
      = some st') :
    st'.total_time_with_display_on + st'.total_time_with_display_off
      = st'.last_display_switch - start_timestamp := by
  have hinv := walk_time_telescope charge_events lines _ _ h
  simp only at hinv
  omega

/-- Witness for C5: one AC→Battery start at 0 followed by display toggles at
250 and 900 (the first sub-threshold, the second printed): the accumulated
times 650 + 250 sum to 900 − 0. -/
theorem walk_c5_witness : (250 : Int) + 650 = 900 - 0 := by
  exact walk_c5 [(0, 50)] [⟨none, some (250, "off")⟩, ⟨none, some (900, "on")⟩]
    "on" 0 ⟨"on", 900, 250, 650, 0, 0, [Msg.intervalReport 250 900 0 0 10 "sleep"]⟩
    (by decide)

/-! ## Claim C7: monotonicity of the four running totals -/

/-- C7 counterexample: a single interval with a charge INCREASE (50% at 0,
60% at 400, simulating brief AC contact) gives consumption
`50 − 60 = −10`, which is added unmodified — so
`total_consumption_with_display_on` DECREASES from 0 to −10 during the walk.
The four totals are not all monotonically non-decreasing. -/
theorem walk_c7_cex :
    (walk [(0, 50), (400, 60)] ⟨"on", 0, 0, 0, 0, 0, []⟩
        [⟨none, some (400, "off")⟩]).map WalkState.total_consumption_with_display_on
      = some (-10) ∧ ((-10 : Int) < 0) := by
  decide

/-- `Chain' (· ≤ ·)` survives lowering the head. -/
theorem chain_le_of_le {a b : Int} {l : List Int} (hab : a ≤ b)
    (h : List.Chain' (· ≤ ·) (b :: l)) : List.Chain' (· ≤ ·) (a :: l) := by
  cases l with
  | nil => simp
  | cons c l' =>
    rw [List.chain'_cons] at h ⊢
    exact ⟨le_trans hab h.1, h.2⟩

/-- C7 amended: of the four running totals, the two TIME totals are
monotonically non-decreasing across the walk whenever the display timestamps
are chronological (each at or after `last_display_switch`), because every
processed duration is then non-negative; the two CONSUMPTION totals are NOT
monotone — a negative interval consumption (charge increased, e.g. brief AC
contact) is passed through with no clamping and decreases its bucket's
total, as `walk_c7_cex` shows. -/
theorem walk_c7 (charge_events : List (Int × Int)) (lines : List LogLine) :
    ∀ st st', walk charge_events st lines = some st' →
      List.Chain' (· ≤ ·) (st.last_display_switch :: displayTimestamps lines) →
      st.total_time_with_display_on ≤ st'.total_time_with_display_on ∧
      st.total_time_with_display_off ≤ st'.total_time_with_display_off := by
  induction lines with
  | nil =>
    intro st st' h _
    simp only [walk] at h
    have hR := Option.some.inj h
    subst hR
    exact ⟨le_refl _, le_refl _⟩
  | cons line rest ih =>
    intro st st' h hchain
    simp only [walk] at h
    cases hstep : walkStep charge_events st line with
    | none => rw [hstep] at h; exact Option.noConfusion h
    | some st2 =>
      rw [hstep] at h
      cases hd : line.displayMatch with
      | none =>
        have hdt : displayTimestamps (line :: rest) = displayTimestamps rest := by
          simp [displayTimestamps, hd]
        rw [hdt] at hchain
        simp only [walkStep, hd] at hstep
        have hR := Option.some.inj hstep
        subst hR
        exact ih st st' h hchain
      | some p =>
        obtain ⟨ts, s⟩ := p
        have hdt : displayTimestamps (line :: rest) = ts :: displayTimestamps rest := by
          simp [displayTimestamps, hd]
        rw [hdt, List.chain'_cons] at hchain
        obtain ⟨hle, hchain2⟩ := hchain
        by_cases hne : s = st.current_display_state
        · simp only [walkStep, hd, if_pos hne] at hstep
          have hR := Option.some.inj hstep
          subst hR
          exact ih st st' h (chain_le_of_le hle hchain2)
        · rcases hx : get_closest_event charge_events st.last_display_switch with ⟨o1, w1⟩
          rcases hy : get_closest_event charge_events ts with ⟨o2, w2⟩
          cases o1 with
          | none =>
            simp only [walkStep, hd, if_neg hne, hx] at hstep
            exact Option.noConfusion hstep
          | some e1 =>
            cases o2 with
            | none =>
              simp only [walkStep, hd, if_neg hne, hx, hy] at hstep
              exact Option.noConfusion hstep
            | some e2 =>
              simp only [walkStep, hd, if_neg hne, hx, hy] at hstep
              have hR := Option.some.inj hstep
              subst hR
              have hrec := ih _ st' h hchain2
              have h1 := hrec.1
              have h2 := hrec.2
              simp only at h1 h2
              constructor
              · by_cases hson : s = "on"
                · simp only [if_pos hson] at h1
                  exact h1
                · simp only [if_neg hson] at h1
                  omega
              · by_cases hson : s = "on"
                · simp only [if_pos hson] at h2
                  omega
                · simp only [if_neg hson] at h2
                  exact h2

/-- Witness for C7 (amended): one chronological display transition at 10
from `last_display_switch = 0`; both time totals do not decrease. -/
theorem walk_c7_witness : ((0 : Int) ≤ 10 ∧ (0 : Int) ≤ 0) := by
  exact walk_c7 [(0, 50)] [⟨none, some (10, "off")⟩] ⟨"on", 0, 0, 0, 0, 0, []⟩
    ⟨"off", 10, 10, 0, 0, 0, []⟩ (by decide)
    (by show List.Chain' (· ≤ ·) [(0 : Int), 10]
        norm_num [List.chain'_cons, List.chain'_singleton])

/-! ## Claim C8: open-ended tail handling -/

/-- C8: whenever `end_index` equals the total line count (the machine is
still unplugged), `process_lines` computes exactly one final interval from
`last_display_switch` to the wall-clock time `now`, with consumption equal
to the charge nearest `last_display_switch` minus the live battery
percentage `cc`, always adds this duration and consumption to the display-ON
totals (they appear in the usage slots of the summary), and always emits the
final per-interval report line — no 300-second threshold is applied to it. -/
theorem process_lines_c8 (pmset_lines : List LogLine) (now : Int) (cc : Int)
    (start_index : Nat) (start_charge start_timestamp : Int)
    (start_display_state : String) (st : WalkState) (e : Int × Int) (w : List Msg)
    (hb : boundaryScan pmset_lines
      = some (pmset_lines.length, start_index, start_charge, start_timestamp))
    (hfd : findStartDisplay pmset_lines start_index = some start_display_state)
    (hw : walk (chargeEventsFrom pmset_lines start_index)
        ⟨start_display_state, start_timestamp, 0, 0, 0, 0, []⟩
        ((pmset_lines.drop start_index).take (pmset_lines.length - start_index))
      = some st)
    (hc : get_closest_event (chargeEventsFrom pmset_lines start_index)
        st.last_display_switch = (some e, w)) :
    process_lines pmset_lines now (some cc) =
      some ⟨(st.msgs ++ w ++
        [Msg.finalReport st.last_display_switch now (e.2 - cc)
          (Int.tdiv (now - st.last_display_switch) 3600)
          (Int.tdiv (Int.emod (now - st.last_display_switch) 3600) 60)] ++
        summaryMsgs start_timestamp start_charge
          (st.total_consumption_with_display_on + (e.2 - cc))
          (st.total_time_with_display_on + (now - st.last_display_switch))
          st.total_consumption_with_display_off
          st.total_time_with_display_off).map fun m => (OutStream.out, m), 0⟩ := by
  simp only [process_lines, hb, hfd, hw, hc, eq_self_iff_true, ite_true]

/-- Witness for C8: a three-line log ending on battery; the final interval
runs from the unplug at 0 to `now = 100` (only 100 seconds — far below the
300-second threshold — yet reported), consumption `95 − 90 = 5` goes to the
display-ON totals. -/
theorem process_lines_c8_witness :
    process_lines [⟨none, some (-50, "on")⟩, ⟨some (-10, PowerSource.AC, 100), none⟩,
        ⟨some (0, PowerSource.Batt, 95), none⟩] 100 (some 90) =
      some ⟨([Msg.finalReport 0 100 5 0 1] ++ summaryMsgs 0 95 5 100 0 0).map
        fun m => (OutStream.out, m), 0⟩ := by
  rw [process_lines_c8 _ 100 90 3 95 0 "on" ⟨"on", 0, 0, 0, 0, 0, []⟩ (0, 95) []
    (by decide) (by decide) (by decide) (by decide)]
  rfl

/-! ## Claim C9: output streams of fatal and non-fatal messages -/

/-- C9 counterexample: the fatal boundary-not-found condition writes its
message with a plain `print(...)` — standard output, NOT standard error.
The claim that fatal error messages go to standard error is false. -/
theorem process_lines_c9_cex :
    process_lines [⟨some (0, PowerSource.Batt, 95), none⟩] 0 none =
      some ⟨[(OutStream.out, Msg.couldNotDetermineUnplug)], 1⟩ ∧
    OutStream.out ≠ OutStream.err := by
  decide

/-- C9 amended: EVERY message `process_lines` prints — the three fatal
messages (boundary-not-found, display-state-not-found, live-charge-
unreadable), the non-fatal nearest-charge gap warning, and all normal report
output — goes to standard output; `process_lines` never writes to standard
error (only the usage error in `main` does, which is outside this claim's
conditions). -/
theorem process_lines_c9 (pmset_lines : List LogLine) (now : Int) (cap : Option Int)
    (r : ProcOutput) (h : process_lines pmset_lines now cap = some r) :
    ∀ p ∈ r.msgs, p.1 = OutStream.out := by
  cases hb : boundaryScan pmset_lines with
  | none =>
    simp only [process_lines, hb] at h
    have hr := Option.some.inj h
    subst hr
    intro p hp
    simp only [List.mem_singleton] at hp
    subst hp
    rfl
  | some q =>
    obtain ⟨e_i, s_i, s_c, s_t⟩ := q
    cases hfd : findStartDisplay pmset_lines s_i with
    | none =>
      simp only [process_lines, hb, hfd] at h
      have hr := Option.some.inj h
      subst hr
      intro p hp
      simp only [List.mem_singleton] at hp
      subst hp
      rfl
    | some sds =>
      cases hwk : walk (chargeEventsFrom pmset_lines s_i) ⟨sds, s_t, 0, 0, 0, 0, []⟩
          ((pmset_lines.drop s_i).take (e_i - s_i)) with
      | none =>
        simp only [process_lines, hb, hfd, hwk] at h
        exact Option.noConfusion h
      | some st =>
        by_cases he : e_i = pmset_lines.length
        · rcases hce : get_closest_event (chargeEventsFrom pmset_lines s_i)
              st.last_display_switch with ⟨o, w⟩
          cases o with
          | none =>
            simp only [process_lines, hb, hfd, hwk, if_pos he, hce] at h
            exact Option.noConfusion h
          | some e =>
            cases cap with
            | none =>
              simp only [process_lines, hb, hfd, hwk, if_pos he, hce] at h
              have hr := Option.some.inj h
              subst hr
              intro p hp
              simp only [List.mem_map] at hp
              obtain ⟨m, _, rfl⟩ := hp
              rfl
            | some c =>
              simp only [process_lines, hb, hfd, hwk, if_pos he, hce] at h
              have hr := Option.some.inj h
              subst hr
              intro p hp
              simp only [List.mem_map] at hp
              obtain ⟨m, _, rfl⟩ := hp
              rfl
        · simp only [process_lines, hb, hfd, hwk, if_neg he] at h
          have hr := Option.some.inj h
          subst hr
          intro p hp
          simp only [List.mem_map] at hp
          obtain ⟨m, _, rfl⟩ := hp
          rfl

/-- Witness for C9 (amended) on the boundary-failure run: the fatal message
is on standard output. -/
theorem process_lines_c9_witness :
    ((OutStream.out, Msg.couldNotDetermineUnplug)).1 = OutStream.out :=
  process_lines_c9 [⟨some (0, PowerSource.Batt, 95), none⟩] 0 none
    ⟨[(OutStream.out, Msg.couldNotDetermineUnplug)], 1⟩ (by decide)
    (OutStream.out, Msg.couldNotDetermineUnplug) (by decide)

/-! ## Claim C10: the UTC-offset field is discarded by timestamp parsing -/

/-- C10: `TIMESTAMP_REGEX` captures only the naive `YYYY-MM-DD HH:MM:SS`
part; the `[+-]\d{4}` offset is consumed but not captured.  Hence (1) two
lines identical except for their offset field parse identically — the same
captured group (the only input `convert_timestamp` receives) and the same
remainder (the only input the rest of either regex examines) — so two logs
identical except for offsets produce identical analysis and lines with equal
naive times but different offsets are treated as simultaneous; and (2) a
successful parse returns exactly the 19 naive characters and the post-offset
remainder, nothing of the offset. -/
theorem matchTimestampHead_c10
    (c0 c1 c2 c3 c4 c5 c6 c7 c8 c9 c10 c11 c12 c13 c14 c15 c16 c17 c18 : Char)
    (w s1 s2 o1 o2 o3 o4 p1 p2 p3 p4 : Char) (rest : List Char)
    (h1 : offsetOK w s1 o1 o2 o3 o4 = true)
    (h2 : offsetOK w s2 p1 p2 p3 p4 = true) :
    matchTimestampHead (c0 :: c1 :: c2 :: c3 :: c4 :: c5 :: c6 :: c7 :: c8 :: c9 :: c10 ::
        c11 :: c12 :: c13 :: c14 :: c15 :: c16 :: c17 :: c18 ::
        w :: s1 :: o1 :: o2 :: o3 :: o4 :: rest)
      = matchTimestampHead (c0 :: c1 :: c2 :: c3 :: c4 :: c5 :: c6 :: c7 :: c8 :: c9 :: c10 ::
        c11 :: c12 :: c13 :: c14 :: c15 :: c16 :: c17 :: c18 ::
        w :: s2 :: p1 :: p2 :: p3 :: p4 :: rest) ∧
    (∀ cap r,
      matchTimestampHead (c0 :: c1 :: c2 :: c3 :: c4 :: c5 :: c6 :: c7 :: c8 :: c9 :: c10 ::
          c11 :: c12 :: c13 :: c14 :: c15 :: c16 :: c17 :: c18 ::
          w :: s1 :: o1 :: o2 :: o3 :: o4 :: rest) = some (cap, r) →
      cap = [c0, c1, c2, c3, c4, c5, c6, c7, c8, c9, c10, c11, c12, c13, c14, c15, c16,
        c17, c18] ∧ r = rest) := by
  constructor
  · simp only [matchTimestampHead, h1, h2, Bool.and_true]
  · intro cap r hm
    simp only [matchTimestampHead] at hm
    split at hm
    · have hpair := Option.some.inj hm
      exact ⟨(congrArg Prod.fst hpair).symm, (congrArg Prod.snd hpair).symm⟩
    · exact Option.noConfusion hm

/-- Witness for C10: `2021-01-01 10:00:00 +0100` and
`2021-01-01 10:00:00 -0500` parse identically. -/
theorem matchTimestampHead_c10_witness :
    matchTimestampHead ['2', '0', '2', '1', '-', '0', '1', '-', '0', '1', ' ', '1', '0',
        ':', '0', '0', ':', '0', '0', ' ', '+', '0', '1', '0', '0', ' ', 'x']
      = matchTimestampHead ['2', '0', '2', '1', '-', '0', '1', '-', '0', '1', ' ', '1', '0',
        ':', '0', '0', ':', '0', '0', ' ', '-', '0', '5', '0', '0', ' ', 'x'] :=
  (matchTimestampHead_c10 '2' '0' '2' '1' '-' '0' '1' '-' '0' '1' ' ' '1' '0' ':' '0' '0'
    ':' '0' '0' ' ' '+' '-' '0' '1' '0' '0' '0' '5' '0' '0' [' ', 'x']
    (by decide) (by decide)).1
